import Mathlib

/-!
Verification of `cHAZe_data_JSON/transform_to_firestore.py` against its
natural-language specification.

The Python module is a single-file batch transformation.  This file gives a
shallow embedding of its pure data logic:

* text is modelled as `List Char` (named `Str` below); Python `str.lower`,
  `str.strip` and `str.split` are modelled at the ASCII level, which is the
  level at which the script uses them (all matching patterns and separators
  are ASCII);
* JSON dictionaries holding store / product / price records are modelled as
  structures with `Option` fields (a `none` field models an absent key, so
  Python's `d.get(k, default)` becomes `Option.getD`);
* JSON numbers (prices, coordinates) are modelled as `Rat`;
* the geocode cache (a Python `dict`) is modelled as an association list with
  first-match lookup and replace-or-append update;
* the network is modelled as an oracle `Str → NetResponse` mapping the
  queried address to the response of the geocoding service, and file-system
  interaction of `load_geocode_cache` as an explicit `CacheFileState`;
* `unicodedata.normalize('NFD', ·)` is external library code; theorems about
  `normalize_text` quantify over an arbitrary decomposition function `nfd`
  together with the property of NFD they need (NFD never composes new
  code points, in particular never introduces the ligatures Œ/œ).
-/

set_option maxHeartbeats 1000000

/-- Python strings, modelled as lists of characters. -/
abbrev Str := List Char

/-- ASCII whitespace, modelling the characters Python's `str.strip()` and
`str.split()` treat as whitespace in the script's data. -/
def isWS (c : Char) : Bool :=
  c = ' ' || c = '\t' || c = '\n' || c = '\r' || c = '\x0b' || c = '\x0c'

/-- Python `str.lower()` (ASCII case mapping). -/
def lowerStr (s : Str) : Str := s.map Char.toLower

/-- Python `str.strip()`: drop leading and trailing whitespace. -/
def stripStr (s : Str) : Str :=
  ((s.dropWhile isWS).reverse.dropWhile isWS).reverse

/-- Does `s` start with `pat`? (helper for substring containment). -/
def startsW : Str → Str → Bool
  | [], _ => true
  | _ :: _, [] => false
  | p :: ps, c :: cs => p = c && startsW ps cs

/-- Python's `pat in s` for strings: substring containment. -/
def hasSub (pat : Str) : Str → Bool
  | [] => startsW pat []
  | c :: cs => startsW pat (c :: cs) || hasSub pat cs

/-- Python `str.split()`: split on whitespace runs, discarding empty chunks.
A non-whitespace head either starts a new chunk (at the end of the string or
before whitespace) or extends the first chunk of the tail's split; the inner
`[]` fallback branch is unreachable (the tail starts with a non-whitespace
character there, so its split is non-empty) and only makes the match total. -/
def words : Str → List Str
  | [] => []
  | c :: cs =>
    if isWS c then words cs
    else
      match cs with
      | [] => [[c]]
      | d :: _ =>
        if isWS d then [c] :: words cs
        else
          match words cs with
          | [] => [[c]]
          | w :: ws => (c :: w) :: ws

/-- Python `sep.join(parts)`. -/
def joinSep (sep : Str) : List Str → Str
  | [] => []
  | [w] => w
  | w :: ws => w ++ sep ++ joinSep sep ws

/-- `' '.join(s.split())`: collapse whitespace runs to single spaces. -/
def collapseWS (s : Str) : Str := joinSep [' '] (words s)

-- ---------------------------------------------------------------------------
-- String constants of the script
-- ---------------------------------------------------------------------------

def sUnknown : Str := ['u', 'n', 'k', 'n', 'o', 'w', 'n']
def sOther : Str := ['o', 't', 'h', 'e', 'r']
def sMigros : Str := ['m', 'i', 'g', 'r', 'o', 's']
def sCoop : Str := ['c', 'o', 'o', 'p']
def sDenner : Str := ['d', 'e', 'n', 'n', 'e', 'r']
def sAldi : Str := ['a', 'l', 'd', 'i']
def sAligro : Str := ['a', 'l', 'i', 'g', 'r', 'o']
def sOK : Str := ['O', 'K']
def sError : Str := ['e', 'r', 'r', 'o', 'r']
def sUNKNOWN : Str := ['U', 'N', 'K', 'N', 'O', 'W', 'N']
def sCHF : Str := ['C', 'H', 'F']
def sStore : Str := ['s', 't', 'o', 'r', 'e']

-- ---------------------------------------------------------------------------
-- extract_retailer_id (PHASE 0 helper, lines 31-50)
-- ---------------------------------------------------------------------------

/-- `extract_retailer_id(store_name)` (lines 31-50): empty input yields
`'unknown'`; otherwise the name is lower-cased and stripped and the first of
the substring patterns `migros, coop, denner, aldi, aligro` that occurs in it
is returned, with fallback `'other'`. -/
def extract_retailer_id (store_name : Str) : Str :=
  if store_name = [] then sUnknown
  else
    let name_lower := stripStr (lowerStr store_name)
    if hasSub sMigros name_lower then sMigros
    else if hasSub sCoop name_lower then sCoop
    else if hasSub sDenner name_lower then sDenner
    else if hasSub sAldi name_lower then sAldi
    else if hasSub sAligro name_lower then sAligro
    else sOther

/-- The Retailer Classifier as the spec words it for non-empty input: the
ordered pattern list is scanned and the first pattern contained in the
lower-cased, trimmed name is returned, with fallback `'other'`.  Used to
compare the spec's description with `extract_retailer_id`. -/
def specRetailerPatterns : List Str := [sMigros, sCoop, sDenner, sAldi, sAligro]

/-- Spec-side classifier (see `specRetailerPatterns`). -/
def specClassifyRetailer (name : Str) : Str :=
  let t := stripStr (lowerStr name)
  match specRetailerPatterns.find? (fun p => hasSub p t) with
  | some p => p
  | none => sOther

-- ---------------------------------------------------------------------------
-- clean_special_chars / normalize_text (PHASE 1, lines 123-146)
-- ---------------------------------------------------------------------------

/-- Python `s.replace(c, r)` for a single-character pattern `c`. -/
def replaceChar (c : Char) (r : Str) : Str → Str
  | [] => []
  | x :: xs => if x = c then r ++ replaceChar c r xs else x :: replaceChar c r xs

/-- `clean_special_chars(text)` (lines 123-135): empty input yields the empty
string; otherwise Œ is replaced by `Oe` and œ by `oe` (in that order). -/
def clean_special_chars (text : Str) : Str :=
  if text = [] then []
  else replaceChar 'œ' ['o', 'e'] (replaceChar 'Œ' ['O', 'e'] text)

/-- The combining diacritical marks block U+0300-U+036F matched by the
regular expression in line 146. -/
def combiningMark (c : Char) : Bool :=
  0x300 ≤ c.toNat && c.toNat ≤ 0x36f

/-- `normalize_text(text)` (lines 137-146), parametrised by the NFD
decomposition `nfd` (library function `unicodedata.normalize('NFD', ·)`):
empty input yields the empty string; otherwise special characters are cleaned,
the result is NFD-decomposed, and combining marks are filtered out. -/
def normalize_text (nfd : Str → Str) (text : Str) : Str :=
  if text = [] then []
  else (nfd (clean_special_chars text)).filter (fun c => !combiningMark c)

-- ---------------------------------------------------------------------------
-- Association lists: the model of Python dicts
-- ---------------------------------------------------------------------------

/-- Dict lookup `m.get(k)` / `m[k]`: first matching key. -/
def lookupC {κ β : Type} [DecidableEq κ] : List (κ × β) → κ → Option β
  | [], _ => none
  | (k', v) :: rest, k => if k = k' then some v else lookupC rest k

/-- Dict update `m[k] = v`: replace the binding if the key exists, else
append it (preserving Python-dict insertion order). -/
def insertC {κ β : Type} [DecidableEq κ] : List (κ × β) → κ → β → List (κ × β)
  | [], k, v => [(k, v)]
  | (k', v') :: rest, k, v =>
    if k = k' then (k, v) :: rest else (k', v') :: insertC rest k v

-- ---------------------------------------------------------------------------
-- Geocode cache data model (PHASE 2, lines 208-305)
-- ---------------------------------------------------------------------------

/-- A geocode cache value: a JSON object whose keys `latitude`, `longitude`,
`status`, `accuracy` may each be absent (`none`). -/
structure Entry where
  latitude : Option Rat
  longitude : Option Rat
  status : Option Str
  accuracy : Option Str
  deriving DecidableEq

/-- The in-memory geocode cache: normalized address → entry. -/
abbrev Cache := List (Str × Entry)

/-- State of the geocode cache file as `load_geocode_cache` finds it:
missing, unreadable (open/read raises), unparseable (`json.load` raises), or
readable and parsed as the mapping `cache`. -/
inductive CacheFileState where
  | absent
  | readFailure
  | parseFailure
  | parsed (cache : Cache)

/-- `load_geocode_cache()` (lines 219-227): returns the parsed mapping when
the file exists and both reading and parsing succeed; any failure is caught
by the surrounding `try`/`except` and yields the empty mapping, and a missing
file yields the empty mapping.  The function is total: no error escapes. -/
def load_geocode_cache : CacheFileState → Cache
  | .absent => []
  | .readFailure => []
  | .parseFailure => []
  | .parsed cache => cache

/-- A store record as read from the stores JSON export; `none` models an
absent key.  `has_geo_point` records whether the (deleted) `geo_point` key
was present. -/
structure StoreRec where
  name : Option Str
  address : Option Str
  location_text : Option Str
  store_id : Option Str
  has_geo_point : Bool
  deriving DecidableEq

/-- `normalize_address(store)` (lines 237-245): strip the `address` and
`location_text` fields (absent keys default to the empty string), join the
non-empty parts with `', '`, and collapse whitespace runs to single spaces. -/
def normalize_address (store : StoreRec) : Str :=
  let parts := [stripStr (store.address.getD []), stripStr (store.location_text.getD [])]
  let full_address := joinSep [',', ' '] (parts.filter (fun p => p ≠ []))
  collapseWS full_address

/-- The `location` object of a geocoding result candidate. -/
structure GeoLocation where
  lat : Rat
  lng : Rat
  deriving DecidableEq

/-- One candidate in the geocoding service's `results` array (the script
reads `geometry.location` and `geometry.location_type`). -/
structure GeoCandidate where
  location : GeoLocation
  location_type : Option Str
  deriving DecidableEq

/-- Outcome of the HTTP request in `geocode_address`: a raised transport
exception, or a JSON payload with optional `status` and a `results` array
(an absent array is modelled as `[]`, which is equally falsy in Python). -/
inductive NetResponse where
  | exn
  | payload (status : Option Str) (results : List GeoCandidate)

/-- `geocode_address(address, api_key)` (lines 247-277) given the service's
response `resp`: transport failure yields the sentinel `(0, 0, 'error')`;
a non-`'OK'` status or empty result set yields the sentinel
`(0, 0, reported status)`; otherwise the first candidate's coordinates with
status `'OK'` and accuracy `location_type` (default `'UNKNOWN'`). -/
def geocode_address (resp : NetResponse) (address : Str) (api_key : Str) : Entry :=
  match resp with
  | .exn => { latitude := some 0, longitude := some 0, status := some sError, accuracy := none }
  | .payload status results =>
    if status = some sOK then
      match results with
      | [] => { latitude := some 0, longitude := some 0, status := status, accuracy := none }
      | r :: _ =>
        { latitude := some r.location.lat, longitude := some r.location.lng,
          status := some sOK, accuracy := some (r.location_type.getD sUNKNOWN) }
    else { latitude := some 0, longitude := some 0, status := status, accuracy := none }

/-- Python truthiness of the optional `api_key` argument (`None` and the
empty string are falsy). -/
def truthyStr : Option Str → Bool
  | none => false
  | some s => !s.isEmpty

/-- A coordinate pair as returned by `get_coordinates_for_store`. -/
structure Coords where
  latitude : Rat
  longitude : Rat
  deriving DecidableEq

/-- Result of one `get_coordinates_for_store` call: the returned coordinate
dict, the cache mapping after the call, and the number of network requests
issued during the call. -/
structure LookupResult where
  coords : Coords
  cache : Cache
  netCalls : Nat
  deriving DecidableEq

/-- `get_coordinates_for_store(store, api_key, cache)` (lines 281-305) with
the network oracle `net`: an empty normalized address yields `(0, 0)`; a
cached address is served from the cache (missing entry keys default to 0);
otherwise, with a truthy key, the service is called once and its result is
stored in the cache; with no usable key, `(0, 0)` is returned directly. -/
def get_coordinates_for_store (net : Str → NetResponse) (store : StoreRec)
    (api_key : Option Str) (cache : Cache) : LookupResult :=
  let address := normalize_address store
  if address = [] then { coords := ⟨0, 0⟩, cache := cache, netCalls := 0 }
  else
    match lookupC cache address with
    | some cached =>
      { coords := ⟨cached.latitude.getD 0, cached.longitude.getD 0⟩,
        cache := cache, netCalls := 0 }
    | none =>
      if truthyStr api_key then
        let result := geocode_address (net address) address (api_key.getD [])
        { coords := ⟨result.latitude.getD 0, result.longitude.getD 0⟩,
          cache := insertC cache address result, netCalls := 1 }
      else { coords := ⟨0, 0⟩, cache := cache, netCalls := 0 }

/-- A sequence of coordinate lookups threaded through the cache; each request
carries its own store, credential and network oracle. -/
def runLookups : List (StoreRec × Option Str × (Str → NetResponse)) → Cache → Cache
  | [], cache => cache
  | (store, key, net) :: rest, cache =>
    runLookups rest (get_coordinates_for_store net store key cache).cache

-- ---------------------------------------------------------------------------
-- transform_stores (PHASE 2, lines 308-370)
-- ---------------------------------------------------------------------------

/-- A store record as written by `transform_stores`: the `geo_point` key is
deleted, `retailer_id` and `coordinates` are added, and `store_id` is filled
in when missing. -/
structure StoreOut where
  name : Option Str
  address : Option Str
  location_text : Option Str
  store_id : Str
  retailer_id : Str
  coordinates : Coords
  deriving DecidableEq

/-- One iteration of the loop in `transform_stores` (lines 324-353): delete
`geo_point`, derive `retailer_id` from the display name, record whether the
normalized address was a cache hit (for the printed statistics), look up the
coordinates with credential `None` (line 341), and default a missing
`store_id` to `unknown_` + lower-cased name (name defaulting to `'store'`). -/
def processStore (net : Str → NetResponse) (cache : Cache) (store : StoreRec) :
    StoreOut × Cache × Bool × Nat :=
  let retailer_id := extract_retailer_id (store.name.getD [])
  let address := normalize_address store
  let hit := (lookupC cache address).isSome
  let r := get_coordinates_for_store net store none cache
  let out : StoreOut :=
    { name := store.name
      address := store.address
      location_text := store.location_text
      store_id := store.store_id.getD (sUnknown ++ ['_'] ++ lowerStr (store.name.getD sStore))
      retailer_id := retailer_id
      coordinates := r.coords }
  (out, r.cache, hit, r.netCalls)

/-- File-level side effects a phase can perform on its output files. -/
inductive FileEffect where
  | writeStoresFile
  | saveCacheFile
  deriving DecidableEq

/-- Result of one run of `transform_stores`: transformed stores, final
in-memory cache, the printed hit/miss counters, the number of network
requests issued, and the file effects performed after the loop. -/
structure PhaseResult where
  stores : List StoreOut
  cache : Cache
  cacheHits : Nat
  apiCalls : Nat
  netCalls : Nat
  effects : List FileEffect

/-- The loop of `transform_stores` over the store list, threading the cache
and accumulating the counters. -/
def transform_stores_loop (net : Str → NetResponse) :
    List StoreRec → Cache → List StoreOut × Cache × Nat × Nat × Nat
  | [], cache => ([], cache, 0, 0, 0)
  | store :: rest, cache =>
    let step := processStore net cache store
    let (outs, c, hits, miss, calls) := transform_stores_loop net rest step.2.1
    (step.1 :: outs, c, (if step.2.2.1 then 1 else 0) + hits,
      (if step.2.2.1 then 0 else 1) + miss, step.2.2.2 + calls)

/-- `transform_stores()` (lines 308-370) given the store list read from the
input export and the cache returned by `load_geocode_cache`: the loop runs
with credential `None`, the transformed list is written to the stores output
file, and the function returns.  No call to `save_geocode_cache` occurs
anywhere in the function body, so the only file effect after the loop is the
write of the stores file. -/
def transform_stores (net : Str → NetResponse) (stores : List StoreRec)
    (cache : Cache) : PhaseResult :=
  let (outs, c, hits, miss, calls) := transform_stores_loop net stores cache
  { stores := outs, cache := c, cacheHits := hits, apiCalls := miss,
    netCalls := calls, effects := [FileEffect.writeStoresFile] }

-- ---------------------------------------------------------------------------
-- transform_retailer_prices (PHASE 3, lines 376-483)
-- ---------------------------------------------------------------------------

/-- A raw store-price record from the store-prices export; `none` models an
absent key. -/
structure RawItem where
  store_id : Option Str
  product_id : Option Str
  price : Option Rat
  currency : Option Str
  in_stock : Option Bool
  discount_active : Option Bool
  deriving DecidableEq

/-- A product record from the phase-1 output (`product_id` is accessed
unconditionally by the script, so it is a mandatory field here). -/
structure Product where
  product_id : Str
  name : Option Str
  image_url : Option Str
  category : Option Str
  product_type : Option Str
  keywords : Option (List Str)
  general_unit : Option Str
  deriving DecidableEq

/-- An aggregated retailer-level price document as built in lines 427-456. -/
structure RPrice where
  doc_id : Str
  retailer_id : Str
  product_id : Str
  price : Option Rat
  currency : Str
  in_stock : Bool
  discount_active : Bool
  product_name : Option Str
  product_image : Option Str
  category : Option Str
  product_type : Option Str
  keywords : List Str
  unit : Option Str
  last_updated : Str
  deriving DecidableEq

/-- The `(retailer_id, product_id)` grouping key of a raw record
(lines 403-410): the retailer is derived by applying `extract_retailer_id`
to the record's `store_id` field. -/
def derivedKey (item : RawItem) : Str × Str :=
  (extract_retailer_id (item.store_id.getD []), item.product_id.getD [])

/-- The grouping loop (lines 402-412): iterate the raw records in order and
keep only the first record for each key (`if key not in retailer_prices_map`),
appending new keys in insertion order like a Python dict. -/
def groupFirst : List RawItem → List ((Str × Str) × RawItem) → List ((Str × Str) × RawItem)
  | [], acc => acc
  | item :: rest, acc =>
    let key := derivedKey item
    if (lookupC acc key).isSome then groupFirst rest acc
    else groupFirst rest (acc ++ [(key, item)])

/-- The product lookup map (line 393): a dict comprehension over the product
list, so a duplicated `product_id` keeps the last product. -/
def buildProductMap (products : List Product) : List (Str × Product) :=
  products.foldl (fun m p => insertC m p.product_id p) []

/-- The document built for one grouped entry (lines 419-458): identifier
`retailer_product`, price fields from the (first) raw record with defaults
`'CHF'` / `False` / `False`, denormalized product fields when the product is
found (else explicit `None` / empty keywords), and the run timestamp. -/
def transformItem (pmap : List (Str × Product)) (current_time : Str)
    (key : Str × Str) (item : RawItem) : RPrice :=
  let product := lookupC pmap key.2
  { doc_id := key.1 ++ ['_'] ++ key.2
    retailer_id := key.1
    product_id := key.2
    price := item.price
    currency := item.currency.getD sCHF
    in_stock := item.in_stock.getD false
    discount_active := item.discount_active.getD false
    product_name := product.bind (fun p => p.name)
    product_image := product.bind (fun p => p.image_url)
    category := product.bind (fun p => p.category)
    product_type := product.bind (fun p => p.product_type)
    keywords := (product.map (fun p => p.keywords.getD [])).getD []
    unit := product.bind (fun p => p.general_unit)
    last_updated := current_time }

/-- Strict lexicographic order on strings by code point (Python `<`). -/
def strLT : Str → Str → Bool
  | [], [] => false
  | [], _ :: _ => true
  | _ :: _, [] => false
  | a :: as, b :: bs => a < b || (a = b && strLT as bs)

/-- Strict lexicographic order on the sort key tuples of line 461. -/
def keyLT (a b : Str × Str) : Bool :=
  strLT a.1 b.1 || (a.1 = b.1 && strLT a.2 b.2)

/-- The grouping key of an aggregated record. -/
def keyOfR (r : RPrice) : Str × Str := (r.retailer_id, r.product_id)

/-- The stable sort of line 461: ascending by `(retailer_id, product_id)`. -/
def sortRP (l : List RPrice) : List RPrice :=
  l.mergeSort (fun x y => !keyLT (keyOfR y) (keyOfR x))

/-- `transform_retailer_prices()` (lines 376-483) given the raw store-price
list, the phase-1 product list, and the run timestamp: build the product
map, group the raw records first-record-wins, transform each grouped entry,
and sort the result by `(retailer_id, product_id)`. -/
def transform_retailer_prices (inventory : List RawItem) (products : List Product)
    (current_time : Str) : List RPrice :=
  let pmap := buildProductMap products
  let grouped := groupFirst inventory []
  sortRP (grouped.map (fun kv => transformItem pmap current_time kv.1 kv.2))

-- ---------------------------------------------------------------------------
-- Helper lemmas: association lists
-- ---------------------------------------------------------------------------

theorem lookupC_insertC_self {κ β : Type} [DecidableEq κ] (m : List (κ × β)) (k : κ) (v : β) :
    lookupC (insertC m k v) k = some v := by
  induction m with
  | nil => simp [insertC, lookupC]
  | cons kv rest ih =>
    obtain ⟨k', v'⟩ := kv
    by_cases h : k = k'
    · simp [insertC, lookupC, h]
    · simp [insertC, lookupC, h, ih]

theorem lookupC_insertC_ne {κ β : Type} [DecidableEq κ] (m : List (κ × β)) {a k : κ} (v : β)
    (h : a ≠ k) : lookupC (insertC m k v) a = lookupC m a := by
  induction m with
  | nil => simp [insertC, lookupC, h]
  | cons kv rest ih =>
    obtain ⟨k', v'⟩ := kv
    by_cases hk : k = k'
    · subst hk
      simp [insertC, lookupC, h]
    · by_cases ha : a = k'
      · simp [insertC, lookupC, hk, ha]
      · simp [insertC, lookupC, hk, ha, ih]

theorem lookupC_append_of_none {κ β : Type} [DecidableEq κ] {m₁ : List (κ × β)}
    (m₂ : List (κ × β)) {k : κ} (h : lookupC m₁ k = none) :
    lookupC (m₁ ++ m₂) k = lookupC m₂ k := by
  induction m₁ with
  | nil => simp
  | cons kv rest ih =>
    obtain ⟨k', v'⟩ := kv
    by_cases hk : k = k'
    · simp [lookupC, hk] at h
    · simp [lookupC, hk] at h ⊢
      exact ih h

theorem lookupC_append_of_some {κ β : Type} [DecidableEq κ] {m₁ : List (κ × β)}
    (m₂ : List (κ × β)) {k : κ} {v : β} (h : lookupC m₁ k = some v) :
    lookupC (m₁ ++ m₂) k = some v := by
  induction m₁ with
  | nil => simp [lookupC] at h
  | cons kv rest ih =>
    obtain ⟨k', v'⟩ := kv
    by_cases hk : k = k'
    · simp [lookupC, hk] at h ⊢
      exact h
    · simp [lookupC, hk] at h ⊢
      exact ih h

-- ---------------------------------------------------------------------------
-- C9: cache load degrades to the empty mapping
-- ---------------------------------------------------------------------------

/-- Claim C9: `load_geocode_cache` returns the empty mapping when the cache
file is absent, unreadable, or unparseable, and the stored mapping when the
file is readable and parseable; being a total function of the file state, it
raises no error. -/
theorem load_geocode_cache_spec (c : Cache) :
    load_geocode_cache CacheFileState.absent = [] ∧
    load_geocode_cache CacheFileState.readFailure = [] ∧
    load_geocode_cache CacheFileState.parseFailure = [] ∧
    load_geocode_cache (CacheFileState.parsed c) = c :=
  ⟨rfl, rfl, rfl, rfl⟩

-- ---------------------------------------------------------------------------
-- C4: the retailer classifier
-- ---------------------------------------------------------------------------

/-- Claim C4, counterexample: on the empty input the classifier returns
`'unknown'`, not the fallback `'other'` the claim states. -/
theorem extract_retailer_id_empty_cex :
    extract_retailer_id [] = sUnknown ∧ sUnknown ≠ sOther := by
  decide

/-- Claim C4, amended: for a non-empty input the classifier lower-cases and
trims it and returns the first matching pattern among
`migros, coop, denner, aldi, aligro` (substring containment, fixed order)
with fallback `'other'`; the empty input yields `'unknown'` instead. -/
theorem extract_retailer_id_amended (s : Str) :
    extract_retailer_id s = if s = [] then sUnknown else specClassifyRetailer s := by
  by_cases hs : s = []
  · simp [extract_retailer_id, hs]
  · by_cases h1 : hasSub sMigros (stripStr (lowerStr s))
    · simp [extract_retailer_id, specClassifyRetailer, specRetailerPatterns, List.find?, hs, h1]
    · by_cases h2 : hasSub sCoop (stripStr (lowerStr s))
      · simp [extract_retailer_id, specClassifyRetailer, specRetailerPatterns, List.find?,
          hs, h1, h2]
      · by_cases h3 : hasSub sDenner (stripStr (lowerStr s))
        · simp [extract_retailer_id, specClassifyRetailer, specRetailerPatterns, List.find?,
            hs, h1, h2, h3]
        · by_cases h4 : hasSub sAldi (stripStr (lowerStr s))
          · simp [extract_retailer_id, specClassifyRetailer, specRetailerPatterns, List.find?,
              hs, h1, h2, h3, h4]
          · by_cases h5 : hasSub sAligro (stripStr (lowerStr s))
            · simp [extract_retailer_id, specClassifyRetailer, specRetailerPatterns, List.find?,
                hs, h1, h2, h3, h4, h5]
            · simp [extract_retailer_id, specClassifyRetailer, specRetailerPatterns, List.find?,
                hs, h1, h2, h3, h4, h5]

-- ---------------------------------------------------------------------------
-- C10: the text normalizer
-- ---------------------------------------------------------------------------

theorem mem_replaceChar {x c : Char} {r s : Str} (hx : x ∈ replaceChar c r s) :
    x ∈ r ∨ (x ∈ s ∧ x ≠ c) := by
  induction s with
  | nil => simp [replaceChar] at hx
  | cons y ys ih =>
    by_cases h : y = c
    · rw [replaceChar, if_pos h] at hx
      rcases List.mem_append.mp hx with h' | h'
      · exact Or.inl h'
      · rcases ih h' with h'' | ⟨hmem, hne⟩
        · exact Or.inl h''
        · exact Or.inr ⟨List.mem_cons_of_mem _ hmem, hne⟩
    · rw [replaceChar, if_neg h] at hx
      rcases List.mem_cons.mp hx with rfl | h'
      · exact Or.inr ⟨List.mem_cons_self _ _, h⟩
      · rcases ih h' with h'' | ⟨hmem, hne⟩
        · exact Or.inl h''
        · exact Or.inr ⟨List.mem_cons_of_mem _ hmem, hne⟩

theorem clean_special_chars_no_lig (text : Str) :
    'Œ' ∉ clean_special_chars text ∧ 'œ' ∉ clean_special_chars text := by
  by_cases ht : text = []
  · simp [clean_special_chars, ht]
  · rw [clean_special_chars, if_neg ht]
    constructor
    · intro hx
      rcases mem_replaceChar hx with h | ⟨hmem, _⟩
      · simp at h
      · rcases mem_replaceChar hmem with h | ⟨_, hne⟩
        · simp at h
        · exact hne rfl
    · intro hx
      rcases mem_replaceChar hx with h | ⟨_, hne⟩
      · simp at h
      · exact hne rfl

/-- Claim C10: for every input (in particular for those containing the
ligatures Œ/œ), the output of `normalize_text` contains neither ligature
code point and no combining diacritical mark (U+0300-U+036F); the empty
input yields the empty string.  `nfd` ranges over all functions that, like
Unicode NFD decomposition, never introduce the ligature code points;
totality over the input domain holds because `normalize_text` is a total
function. -/
theorem normalize_text_spec (nfd : Str → Str)
    (hnfd : ∀ t, 'Œ' ∉ t → 'œ' ∉ t → ∀ c ∈ nfd t, c ≠ 'Œ' ∧ c ≠ 'œ') (text : Str) :
    ('Œ' ∉ normalize_text nfd text ∧ 'œ' ∉ normalize_text nfd text) ∧
    (∀ c ∈ normalize_text nfd text, combiningMark c = false) ∧
    (text = [] → normalize_text nfd text = []) := by
  by_cases ht : text = []
  · simp [normalize_text, ht]
  · rw [normalize_text, if_neg ht]
    obtain ⟨hno1, hno2⟩ := clean_special_chars_no_lig text
    refine ⟨⟨?_, ?_⟩, ?_, fun h => absurd h ht⟩
    · intro hx
      have hmem := (List.mem_filter.mp hx).1
      exact (hnfd _ hno1 hno2 _ hmem).1 rfl
    · intro hx
      have hmem := (List.mem_filter.mp hx).1
      exact (hnfd _ hno1 hno2 _ hmem).2 rfl
    · intro c hc
      have := (List.mem_filter.mp hc).2
      simpa using this

/-- Witness for C10 at `nfd = id` and the concrete input `Œuf`. -/
theorem normalize_text_spec_witness :
    'Œ' ∉ normalize_text (fun t => t) ['Œ', 'u', 'f'] ∧
    'œ' ∉ normalize_text (fun t => t) ['Œ', 'u', 'f'] :=
  (normalize_text_spec (fun t => t)
    (fun _ h1 h2 c hc => ⟨fun he => h1 (he ▸ hc), fun he => h2 (he ▸ hc)⟩)
    ['Œ', 'u', 'f']).1

-- ---------------------------------------------------------------------------
-- C8: lookup without a credential
-- ---------------------------------------------------------------------------

/-- Claim C8, counterexample: with no credential but a cache hit, the lookup
returns the *cached* coordinates (1, 2), not the zero-coordinate result the
claim states for every no-credential lookup. -/
theorem get_coordinates_no_key_cex :
    (get_coordinates_for_store (fun _ => NetResponse.exn)
        { name := none, address := some ['x'], location_text := none,
          store_id := none, has_geo_point := false } none
        [(['x'], { latitude := some 1, longitude := some 2, status := none,
                   accuracy := none })]).coords ≠
      { latitude := 0, longitude := 0 } := by
  decide

/-- Claim C8, amended: with no credential the lookup makes no network call
and leaves the cache mapping unchanged, and when the normalized address is
absent from the cache a zero-coordinate result is returned directly. -/
theorem get_coordinates_no_key (net : Str → NetResponse) (store : StoreRec) (cache : Cache) :
    (get_coordinates_for_store net store none cache).netCalls = 0 ∧
    (get_coordinates_for_store net store none cache).cache = cache ∧
    (lookupC cache (normalize_address store) = none →
      (get_coordinates_for_store net store none cache).coords = ⟨0, 0⟩) := by
  unfold get_coordinates_for_store
  by_cases ha : normalize_address store = []
  · simp [ha, truthyStr]
  · cases hl : lookupC cache (normalize_address store) with
    | some e => simp [ha, hl, truthyStr]
    | none => simp [ha, hl, truthyStr]

/-- Witness for the amended C8 at a concrete store and the empty cache. -/
theorem get_coordinates_no_key_witness :
    (get_coordinates_for_store (fun _ => NetResponse.exn)
        { name := none, address := some ['y'], location_text := none,
          store_id := none, has_geo_point := false } none []).coords = ⟨0, 0⟩ :=
  (get_coordinates_no_key (fun _ => NetResponse.exn)
    { name := none, address := some ['y'], location_text := none,
      store_id := none, has_geo_point := false } []).2.2 (by decide)

-- ---------------------------------------------------------------------------
-- C5: failed geocoding is cached and sticky
-- ---------------------------------------------------------------------------

/-- Claim C5: with a usable credential, a cache miss, and a service response
whose status is not `'OK'` or whose result set is empty, the lookup stores
the sentinel entry (latitude 0, longitude 0, status = reported status) in
the cache under the normalized address and issues exactly one network call;
every subsequent lookup for the same normalized address (any store, any
credential, any oracle) is served from the cache with zero network calls. -/
theorem geocode_failure_sticky (net : Str → NetResponse) (store : StoreRec)
    (api_key : Option Str) (cache : Cache) (st : Option Str) (results : List GeoCandidate)
    (hkey : truthyStr api_key = true)
    (hne : normalize_address store ≠ [])
    (hmiss : lookupC cache (normalize_address store) = none)
    (hresp : net (normalize_address store) = NetResponse.payload st results)
    (hfail : st ≠ some sOK ∨ results = []) :
    (get_coordinates_for_store net store api_key cache).cache =
      insertC cache (normalize_address store)
        { latitude := some 0, longitude := some 0, status := st, accuracy := none } ∧
    (get_coordinates_for_store net store api_key cache).netCalls = 1 ∧
    (get_coordinates_for_store net store api_key cache).coords = ⟨0, 0⟩ ∧
    ∀ (net2 : Str → NetResponse) (store2 : StoreRec) (key2 : Option Str),
      normalize_address store2 = normalize_address store →
      (get_coordinates_for_store net2 store2 key2
          (get_coordinates_for_store net store api_key cache).cache).netCalls = 0 ∧
      (get_coordinates_for_store net2 store2 key2
          (get_coordinates_for_store net store api_key cache).cache).cache =
        (get_coordinates_for_store net store api_key cache).cache ∧
      (get_coordinates_for_store net2 store2 key2
          (get_coordinates_for_store net store api_key cache).cache).coords = ⟨0, 0⟩ := by
  have hgeo : geocode_address (net (normalize_address store)) (normalize_address store)
      (api_key.getD []) =
      { latitude := some 0, longitude := some 0, status := st, accuracy := none } := by
    rw [hresp]
    rcases hfail with hst | hres
    · simp [geocode_address, hst]
    · subst hres
      by_cases hst : st = some sOK <;> simp [geocode_address, hst]
  have h1 : get_coordinates_for_store net store api_key cache =
      { coords := ⟨0, 0⟩,
        cache := insertC cache (normalize_address store)
          { latitude := some 0, longitude := some 0, status := st, accuracy := none },
        netCalls := 1 } := by
    unfold get_coordinates_for_store
    simp [hne, hmiss, hkey, hgeo]
  refine ⟨by rw [h1], by rw [h1], by rw [h1], ?_⟩
  intro net2 store2 key2 haddr2
  rw [h1]
  have hhit : lookupC (insertC cache (normalize_address store)
      { latitude := some 0, longitude := some 0, status := st, accuracy := none })
      (normalize_address store2) =
      some { latitude := some 0, longitude := some 0, status := st, accuracy := none } := by
    rw [haddr2]
    exact lookupC_insertC_self cache _ _
  have hne2 : normalize_address store2 ≠ [] := by rw [haddr2]; exact hne
  unfold get_coordinates_for_store
  simp [hne2, hhit]

/-- Witness for C5 at a concrete store, an empty cache, and a service
response with status `'Z'` and no results. -/
theorem geocode_failure_sticky_witness :
    (get_coordinates_for_store (fun _ => NetResponse.payload (some ['Z']) [])
        { name := none, address := some ['a'], location_text := none,
          store_id := none, has_geo_point := false } (some ['k']) []).cache =
      insertC [] ['a']
        { latitude := some 0, longitude := some 0, status := some ['Z'], accuracy := none } ∧
    (get_coordinates_for_store (fun _ => NetResponse.payload (some ['Z']) [])
        { name := none, address := some ['a'], location_text := none,
          store_id := none, has_geo_point := false } (some ['k']) []).netCalls = 1 := by
  have h := geocode_failure_sticky (fun _ => NetResponse.payload (some ['Z']) [])
    { name := none, address := some ['a'], location_text := none,
      store_id := none, has_geo_point := false } (some ['k']) [] (some ['Z']) []
    (by decide) (by decide) (by decide) rfl (Or.inr rfl)
  have ha : normalize_address
      { name := none, address := some ['a'], location_text := none,
        store_id := none, has_geo_point := false } = ['a'] := by decide
  exact ⟨by rw [h.1, ha], h.2.1⟩

-- ---------------------------------------------------------------------------
-- C6: the cache is append-only within a run
-- ---------------------------------------------------------------------------

theorem get_coordinates_preserves (net : Str → NetResponse) (store : StoreRec)
    (key : Option Str) (cache : Cache) {a : Str} {e : Entry}
    (h : lookupC cache a = some e) :
    lookupC (get_coordinates_for_store net store key cache).cache a = some e := by
  unfold get_coordinates_for_store
  by_cases haddr : normalize_address store = []
  · simpa [haddr]
  · cases hl : lookupC cache (normalize_address store) with
    | some cached => simpa [haddr, hl]
    | none =>
      by_cases hk : truthyStr key = true
      · have hne : a ≠ normalize_address store := by
          intro hEq
          rw [hEq, hl] at h
          cases h
        simp only [haddr, if_false, hl, hk, if_true]
        rw [lookupC_insertC_ne _ _ hne]
        exact h
      · simpa [haddr, hl, hk]

/-- Claim C6: across any sequence of coordinate lookups, an entry present in
the cache mapping is never changed by a later lookup: if the key `a` is bound
to `e`, it is still bound to `e` after the whole sequence runs. -/
theorem cache_append_only (reqs : List (StoreRec × Option Str × (Str → NetResponse)))
    (cache : Cache) (a : Str) (e : Entry) (h : lookupC cache a = some e) :
    lookupC (runLookups reqs cache) a = some e := by
  induction reqs generalizing cache with
  | nil => simpa [runLookups]
  | cons r rest ih =>
    obtain ⟨store, key, net⟩ := r
    rw [runLookups]
    exact ih _ (get_coordinates_preserves net store key cache h)

/-- Witness for C6: a prepopulated entry survives a lookup sequence that
geocodes a different address. -/
theorem cache_append_only_witness :
    lookupC (runLookups
        [({ name := none, address := some ['b'], location_text := none,
            store_id := none, has_geo_point := false }, some ['k'],
          fun _ => NetResponse.exn)]
        [(['c'], { latitude := some 3, longitude := some 4, status := some sOK,
                   accuracy := none })]) ['c'] =
      some { latitude := some 3, longitude := some 4, status := some sOK,
             accuracy := none } :=
  cache_append_only _ _ _ _ (by decide)

-- ---------------------------------------------------------------------------
-- Helper lemmas: lookups with credential None
-- ---------------------------------------------------------------------------

theorem gcfs_none_cache (net : Str → NetResponse) (store : StoreRec) (cache : Cache) :
    (get_coordinates_for_store net store none cache).cache = cache := by
  unfold get_coordinates_for_store
  by_cases ha : normalize_address store = []
  · simp [ha]
  · cases hl : lookupC cache (normalize_address store) <;> simp [ha, hl, truthyStr]

theorem gcfs_none_netCalls (net : Str → NetResponse) (store : StoreRec) (cache : Cache) :
    (get_coordinates_for_store net store none cache).netCalls = 0 := by
  unfold get_coordinates_for_store
  by_cases ha : normalize_address store = []
  · simp [ha]
  · cases hl : lookupC cache (normalize_address store) <;> simp [ha, hl, truthyStr]

theorem gcfs_none_coords_miss (net : Str → NetResponse) (store : StoreRec) (cache : Cache)
    (h : lookupC cache (normalize_address store) = none) :
    (get_coordinates_for_store net store none cache).coords = ⟨0, 0⟩ := by
  unfold get_coordinates_for_store
  by_cases ha : normalize_address store = []
  · simp [ha]
  · simp [ha, h, truthyStr]

theorem processStore_cache (net : Str → NetResponse) (cache : Cache) (store : StoreRec) :
    (processStore net cache store).2.1 = cache := by
  simp [processStore, gcfs_none_cache]

theorem processStore_netCalls (net : Str → NetResponse) (cache : Cache) (store : StoreRec) :
    (processStore net cache store).2.2.2 = 0 := by
  simp [processStore, gcfs_none_netCalls]

theorem processStore_coords_miss (net : Str → NetResponse) (cache : Cache) (store : StoreRec)
    (h : lookupC cache (normalize_address store) = none) :
    (processStore net cache store).1.coordinates = ⟨0, 0⟩ := by
  simp [processStore, gcfs_none_coords_miss net store cache h]

theorem transform_stores_loop_inert (net : Str → NetResponse) (stores : List StoreRec)
    (cache : Cache) :
    (transform_stores_loop net stores cache).1 =
      stores.map (fun st => (processStore net cache st).1) ∧
    (transform_stores_loop net stores cache).2.1 = cache ∧
    (transform_stores_loop net stores cache).2.2.2.2 = 0 := by
  induction stores with
  | nil => simp [transform_stores_loop]
  | cons st rest ih =>
    rw [transform_stores_loop]
    rw [processStore_cache net cache st]
    rcases hl : transform_stores_loop net rest cache with ⟨outs, c, hits, miss, calls⟩
    rw [hl] at ih
    simp only [List.map_cons]
    refine ⟨?_, ?_, ?_⟩
    · simpa using ih.1
    · simpa using ih.2.1
    · have h1 : (processStore net cache st).2.2.2 = 0 := processStore_netCalls net cache st
      simp [h1]
      simpa using ih.2.2

-- ---------------------------------------------------------------------------
-- C2: the store phase never saves the cache file
-- ---------------------------------------------------------------------------

/-- Claim C2 divergence: for every run of `transform_stores` the only file
effect after the loop is the write of the transformed stores file; in
particular `save_geocode_cache` is never invoked, so the in-memory cache is
*not* written back to the cache file at the end of the phase, contrary to the
claim. -/
theorem transform_stores_never_saves (net : Str → NetResponse) (stores : List StoreRec)
    (cache : Cache) :
    (transform_stores net stores cache).effects = [FileEffect.writeStoresFile] ∧
    FileEffect.saveCacheFile ∉ (transform_stores net stores cache).effects := by
  rcases hl : transform_stores_loop net stores cache with ⟨outs, c, hits, miss, calls⟩
  constructor
  · simp [transform_stores, hl]
  · simp [transform_stores, hl]

-- ---------------------------------------------------------------------------
-- C3: the store phase runs with credential None and is inert
-- ---------------------------------------------------------------------------

/-- Claim C3: `transform_stores` passes credential `None` to every coordinate
lookup (line 341; this is how `processStore` is built), so the phase issues
no network request, returns the loaded cache unchanged, processes each store
against the loaded cache, and every store whose normalized address is absent
from the loaded cache receives coordinates (0, 0). -/
theorem transform_stores_inert (net : Str → NetResponse) (stores : List StoreRec)
    (cache : Cache) :
    (transform_stores net stores cache).netCalls = 0 ∧
    (transform_stores net stores cache).cache = cache ∧
    (transform_stores net stores cache).stores =
      stores.map (fun st => (processStore net cache st).1) ∧
    ∀ st ∈ stores, lookupC cache (normalize_address st) = none →
      (processStore net cache st).1.coordinates = ⟨0, 0⟩ := by
  obtain ⟨h1, h2, h3⟩ := transform_stores_loop_inert net stores cache
  rcases hl : transform_stores_loop net stores cache with ⟨outs, c, hits, miss, calls⟩
  rw [hl] at h1 h2 h3
  refine ⟨?_, ?_, ?_, ?_⟩
  · simp [transform_stores, hl]
    simpa using h3
  · simp [transform_stores, hl]
    simpa using h2
  · simp [transform_stores, hl]
    simpa using h1
  · intro st _ hmiss
    exact processStore_coords_miss net cache st hmiss

/-- Witness for C3 at one concrete store and the empty loaded cache. -/
theorem transform_stores_inert_witness :
    (processStore (fun _ => NetResponse.exn) []
        { name := some ['M'], address := some ['q'], location_text := none,
          store_id := none, has_geo_point := true }).1.coordinates = ⟨0, 0⟩ :=
  (transform_stores_inert (fun _ => NetResponse.exn)
      [{ name := some ['M'], address := some ['q'], location_text := none,
         store_id := none, has_geo_point := true }] []).2.2.2
    _ (by decide) (by decide)

-- ---------------------------------------------------------------------------
-- Helper lemmas: Python split/join/strip
-- ---------------------------------------------------------------------------

theorem words_ws_cons {c : Char} (t : Str) (hc : isWS c = true) :
    words (c :: t) = words t := by
  conv_lhs => rw [words.eq_def]
  simp [hc]

theorem words_one {c : Char} (hc : isWS c = false) : words [c] = [[c]] := by
  conv_lhs => rw [words.eq_def]
  simp [hc]

theorem words_cons_ws {c d : Char} (cs : Str) (hc : isWS c = false)
    (hd : isWS d = true) : words (c :: d :: cs) = [c] :: words (d :: cs) := by
  conv_lhs => rw [words.eq_def]
  simp [hc, hd]

theorem words_cons_nonws {c d : Char} (cs : Str) (hc : isWS c = false)
    (hd : isWS d = false) :
    words (c :: d :: cs) =
      match words (d :: cs) with
      | [] => [[c]]
      | w :: ws => (c :: w) :: ws := by
  conv_lhs => rw [words.eq_def]
  simp [hc, hd]

theorem words_mem (s : Str) : ∀ w ∈ words s, w ≠ [] ∧ ∀ c ∈ w, isWS c = false := by
  induction s with
  | nil => simp [words]
  | cons c cs ih =>
    by_cases hc : isWS c = true
    · rw [words_ws_cons cs hc]
      exact ih
    · have hc' : isWS c = false := by simpa using hc
      cases cs with
      | nil =>
        rw [words_one hc']
        intro w hw
        simp at hw
        subst hw
        exact ⟨by simp, by intro x hx; simp at hx; subst hx; exact hc'⟩
      | cons d cs' =>
        by_cases hd : isWS d = true
        · rw [words_cons_ws cs' hc' hd]
          intro w hw
          rcases List.mem_cons.mp hw with rfl | hw'
          · exact ⟨by simp, by intro x hx; simp at hx; subst hx; exact hc'⟩
          · exact ih w hw'
        · have hd' : isWS d = false := by simpa using hd
          rw [words_cons_nonws cs' hc' hd']
          cases hws : words (d :: cs') with
          | nil =>
            intro w hw
            simp at hw
            subst hw
            exact ⟨by simp, by intro x hx; simp at hx; subst hx; exact hc'⟩
          | cons w0 ws0 =>
            intro w hw
            rcases List.mem_cons.mp hw with rfl | hw'
            · have h0 := ih w0 (by rw [hws]; simp)
              refine ⟨by simp, ?_⟩
              intro x hx
              rcases List.mem_cons.mp hx with rfl | hx'
              · exact hc'
              · exact h0.2 x hx'
            · exact ih w (by rw [hws]; simp [hw'])

theorem words_single {w : Str} (hne : w ≠ []) (hw : ∀ c ∈ w, isWS c = false) :
    words w = [w] := by
  induction w with
  | nil => cases hne rfl
  | cons c cs ih =>
    have hc : isWS c = false := hw c (by simp)
    cases cs with
    | nil => exact words_one hc
    | cons d cs' =>
      have hd : isWS d = false := hw d (by simp)
      have ihh : words (d :: cs') = [d :: cs'] :=
        ih (by simp) (fun x hx => hw x (List.mem_cons_of_mem _ hx))
      rw [words_cons_nonws cs' hc hd, ihh]

theorem words_append_sep {w : Str} (t : Str) (hne : w ≠ [])
    (hw : ∀ c ∈ w, isWS c = false) :
    words (w ++ ' ' :: t) = w :: words t := by
  induction w with
  | nil => cases hne rfl
  | cons c cs ih =>
    have hc : isWS c = false := hw c (by simp)
    cases cs with
    | nil =>
      have h1 : words (c :: ' ' :: t) = [c] :: words (' ' :: t) :=
        words_cons_ws t hc (by decide)
      have h2 : words (' ' :: t) = words t := words_ws_cons t (by decide)
      simpa [h2] using h1
    | cons d cs' =>
      have hd : isWS d = false := hw d (by simp)
      have ihh : words ((d :: cs') ++ ' ' :: t) = (d :: cs') :: words t :=
        ih (by simp) (fun x hx => hw x (List.mem_cons_of_mem _ hx))
      have hstep : words (c :: d :: (cs' ++ ' ' :: t)) =
          match words (d :: (cs' ++ ' ' :: t)) with
          | [] => [[c]]
          | w :: ws => (c :: w) :: ws :=
        words_cons_nonws _ hc hd
      simp only [List.cons_append] at ihh ⊢
      rw [hstep, ihh]

theorem joinSep_pair (sep : Str) (w w2 : Str) (ws : List Str) :
    joinSep sep (w :: w2 :: ws) = w ++ sep ++ joinSep sep (w2 :: ws) := by
  rfl

theorem joinSep_ne_nil (sep : Str) {w : Str} (ws : List Str) (hne : w ≠ []) :
    joinSep sep (w :: ws) ≠ [] := by
  cases ws with
  | nil => simpa [joinSep]
  | cons w2 ws' => simp [joinSep_pair, hne]

theorem words_joinSep (ws : List Str)
    (h : ∀ w ∈ ws, w ≠ [] ∧ ∀ c ∈ w, isWS c = false) :
    words (joinSep [' '] ws) = ws := by
  induction ws with
  | nil => simp [joinSep, words]
  | cons w ws' ih =>
    cases ws' with
    | nil =>
      have hw := h w (by simp)
      simpa [joinSep] using words_single hw.1 hw.2
    | cons w2 ws'' =>
      have hw := h w (by simp)
      have hjoin : joinSep [' '] (w :: w2 :: ws'') =
          w ++ ' ' :: joinSep [' '] (w2 :: ws'') := by
        rw [joinSep_pair]
        simp
      rw [hjoin, words_append_sep _ hw.1 hw.2,
        ih (fun x hx => h x (List.mem_cons_of_mem _ hx))]

theorem dropWhile_eq_self_of_all {p : Char → Bool} {l : Str}
    (h : ∀ c ∈ l, p c = false) : l.dropWhile p = l := by
  cases l with
  | nil => rfl
  | cons c cs =>
    rw [List.dropWhile_cons, h c (by simp)]
    simp

theorem dropWhile_joinSep (ws : List Str)
    (h : ∀ w ∈ ws, w ≠ [] ∧ ∀ c ∈ w, isWS c = false) :
    (joinSep [' '] ws).dropWhile isWS = joinSep [' '] ws := by
  cases ws with
  | nil => simp [joinSep]
  | cons w ws' =>
    obtain ⟨hne, hw⟩ := h w (by simp)
    have hform : ∃ z, joinSep [' '] (w :: ws') = w ++ z := by
      cases ws' with
      | nil => exact ⟨[], by simp [joinSep]⟩
      | cons w2 ws'' => exact ⟨[' '] ++ joinSep [' '] (w2 :: ws''), by rw [joinSep_pair]; simp⟩
    obtain ⟨z, hz⟩ := hform
    rw [hz]
    cases w with
    | nil => cases hne rfl
    | cons c cs =>
      have hc : isWS c = false := hw c (by simp)
      rw [List.cons_append, List.dropWhile_cons, hc]
      simp

theorem dropWhile_reverse_joinSep (ws : List Str)
    (h : ∀ w ∈ ws, w ≠ [] ∧ ∀ c ∈ w, isWS c = false) :
    (joinSep [' '] ws).reverse.dropWhile isWS = (joinSep [' '] ws).reverse := by
  induction ws with
  | nil => simp [joinSep]
  | cons w ws' ih =>
    cases ws' with
    | nil =>
      apply dropWhile_eq_self_of_all
      intro c hc
      exact (h w (by simp)).2 c (List.mem_reverse.mp (by simpa [joinSep] using hc))
    | cons w2 ws'' =>
      have hjoin : joinSep [' '] (w :: w2 :: ws'') =
          w ++ ' ' :: joinSep [' '] (w2 :: ws'') := by
        rw [joinSep_pair]
        simp
      have ihh := ih (fun x hx => h x (List.mem_cons_of_mem _ hx))
      have hjne : joinSep [' '] (w2 :: ws'') ≠ [] :=
        joinSep_ne_nil _ _ (h w2 (by simp)).1
      rw [hjoin, List.reverse_append, List.reverse_cons, List.append_assoc,
        List.dropWhile_append, ihh]
      have hemp : ((joinSep [' '] (w2 :: ws'')).reverse).isEmpty = false := by
        simp [List.isEmpty_iff, hjne]
      rw [hemp]
      simp

theorem stripStr_joinSep (ws : List Str)
    (h : ∀ w ∈ ws, w ≠ [] ∧ ∀ c ∈ w, isWS c = false) :
    stripStr (joinSep [' '] ws) = joinSep [' '] ws := by
  unfold stripStr
  rw [dropWhile_joinSep ws h, dropWhile_reverse_joinSep ws h, List.reverse_reverse]

theorem collapseWS_strip (s : Str) : stripStr (collapseWS s) = collapseWS s :=
  stripStr_joinSep (words s) (words_mem s)

theorem collapseWS_idem (s : Str) : collapseWS (collapseWS s) = collapseWS s := by
  unfold collapseWS
  rw [words_joinSep (words s) (words_mem s)]

theorem normalize_address_of_collapsed (n i : Option Str) (g : Bool) (s : Str) :
    normalize_address
      { name := n, address := some (collapseWS s), location_text := some [],
        store_id := i, has_geo_point := g } = collapseWS s := by
  unfold normalize_address
  simp only [Option.getD_some]
  rw [collapseWS_strip s,
    show stripStr ([] : Str) = [] from rfl]
  by_cases hs : collapseWS s = []
  · rw [hs]
    simp [joinSep, collapseWS, words]
  · have hfilter : ([collapseWS s, ([] : Str)].filter (fun p => p ≠ [])) = [collapseWS s] := by
      simp [List.filter, hs]
    rw [hfilter,
      show joinSep [',', ' '] [collapseWS s] = collapseWS s from rfl]
    exact collapseWS_idem s

-- ---------------------------------------------------------------------------
-- C7: address normalization is idempotent
-- ---------------------------------------------------------------------------

/-- Claim C7: feeding the normalized address back through the normalization,
as the address field of a store whose location field is the empty string,
returns the same string: trimming, comma-joining of non-empty parts and
whitespace-collapsing are a no-op on an already-normalized address. -/
theorem normalize_address_idem (store : StoreRec) :
    normalize_address
      { name := store.name, address := some (normalize_address store),
        location_text := some [], store_id := store.store_id,
        has_geo_point := store.has_geo_point } =
      normalize_address store :=
  normalize_address_of_collapsed store.name store.store_id store.has_geo_point _

-- ---------------------------------------------------------------------------
-- Helper lemmas: the grouping loop of the price aggregator
-- ---------------------------------------------------------------------------

theorem lookupC_eq_none_iff {κ β : Type} [DecidableEq κ] (m : List (κ × β)) (k : κ) :
    lookupC m k = none ↔ ∀ kv ∈ m, kv.1 ≠ k := by
  induction m with
  | nil => simp [lookupC]
  | cons kv rest ih =>
    obtain ⟨k', v'⟩ := kv
    by_cases h : k = k'
    · simp [lookupC, h]
    · simp [lookupC, h, ih]
      intro _
      exact fun he => h he.symm

theorem lookupC_single_ne {κ β : Type} [DecidableEq κ] {k k2 : κ} (v : β) (h : k ≠ k2) :
    lookupC [(k2, v)] k = none := by
  simp [lookupC, h]

theorem groupFirst_lookup_some (inv : List RawItem) (acc : List ((Str × Str) × RawItem))
    {k : Str × Str} {v : RawItem} (h : lookupC acc k = some v) :
    lookupC (groupFirst inv acc) k = some v := by
  induction inv generalizing acc with
  | nil => simpa [groupFirst]
  | cons item rest ih =>
    rw [groupFirst]
    by_cases hl : (lookupC acc (derivedKey item)).isSome
    · rw [if_pos hl]
      exact ih acc h
    · rw [if_neg hl]
      exact ih _ (lookupC_append_of_some _ h)

theorem groupFirst_lookup_none (inv : List RawItem) (acc : List ((Str × Str) × RawItem))
    (k : Str × Str) :
    lookupC (groupFirst inv acc) k = none ↔
      lookupC acc k = none ∧ ∀ it ∈ inv, derivedKey it ≠ k := by
  induction inv generalizing acc with
  | nil => simp [groupFirst]
  | cons item rest ih =>
    rw [groupFirst]
    by_cases hl : (lookupC acc (derivedKey item)).isSome
    · rw [if_pos hl]
      rw [ih acc]
      constructor
      · rintro ⟨h1, h2⟩
        refine ⟨h1, ?_⟩
        intro it hit
        rcases List.mem_cons.mp hit with rfl | hit'
        · intro he
          rw [he] at hl
          rw [h1] at hl
          simp at hl
        · exact h2 it hit'
      · rintro ⟨h1, h2⟩
        exact ⟨h1, fun it hit => h2 it (List.mem_cons_of_mem _ hit)⟩
    · rw [if_neg hl]
      rw [ih _]
      have happ : lookupC (acc ++ [(derivedKey item, item)]) k = none ↔
          lookupC acc k = none ∧ k ≠ derivedKey item := by
        constructor
        · intro h
          cases hacc : lookupC acc k with
          | some v => rw [lookupC_append_of_some _ hacc] at h; cases h
          | none =>
            refine ⟨rfl, ?_⟩
            rw [lookupC_append_of_none _ hacc] at h
            intro he
            rw [he] at h
            simp [lookupC] at h
        · rintro ⟨h1, h2⟩
          rw [lookupC_append_of_none _ h1]
          exact lookupC_single_ne _ h2
      rw [happ]
      constructor
      · rintro ⟨⟨h1, h2⟩, h3⟩
        refine ⟨h1, ?_⟩
        intro it hit
        rcases List.mem_cons.mp hit with rfl | hit'
        · exact fun he => h2 he.symm
        · exact h3 it hit'
      · rintro ⟨h1, h2⟩
        exact ⟨⟨h1, fun he => h2 item (by simp) he.symm⟩,
          fun it hit => h2 it (List.mem_cons_of_mem _ hit)⟩

theorem groupFirst_nodup (inv : List RawItem) (acc : List ((Str × Str) × RawItem))
    (hacc : (acc.map Prod.fst).Nodup) :
    ((groupFirst inv acc).map Prod.fst).Nodup := by
  induction inv generalizing acc with
  | nil => simpa [groupFirst]
  | cons item rest ih =>
    rw [groupFirst]
    by_cases hl : (lookupC acc (derivedKey item)).isSome
    · rw [if_pos hl]
      exact ih acc hacc
    · rw [if_neg hl]
      apply ih
      rw [List.map_append]
      rw [List.nodup_append]
      refine ⟨hacc, by simp, ?_⟩
      intro x hx
      have hnone : lookupC acc (derivedKey item) = none := by
        cases h : lookupC acc (derivedKey item) with
        | none => rfl
        | some v => rw [h] at hl; simp at hl
      have hne := (lookupC_eq_none_iff acc (derivedKey item)).mp hnone
      simp only [List.map_cons, List.map_nil]
      intro hmem
      rcases List.mem_singleton.mp hmem with rfl
      obtain ⟨kv, hkv, hfst⟩ := List.mem_map.mp hx
      exact hne kv hkv hfst

theorem groupFirst_find (inv : List RawItem) (acc : List ((Str × Str) × RawItem))
    (k : Str × Str) (hk : lookupC acc k = none) {it : RawItem}
    (hfind : inv.find? (fun j => decide (derivedKey j = k)) = some it) :
    lookupC (groupFirst inv acc) k = some it := by
  induction inv generalizing acc with
  | nil => simp [List.find?] at hfind
  | cons item rest ih =>
    by_cases hp : derivedKey item = k
    · rw [List.find?_cons_of_pos _ (by simp [hp])] at hfind
      injection hfind with hfind
      subst hfind
      rw [groupFirst]
      have hnone : lookupC acc (derivedKey item) = none := by rw [hp]; exact hk
      rw [if_neg (by rw [hnone]; simp)]
      apply groupFirst_lookup_some
      rw [lookupC_append_of_none _ hk, hp]
      simp [lookupC]
    · rw [List.find?_cons_of_neg _ (by simp [hp])] at hfind
      rw [groupFirst]
      by_cases hl : (lookupC acc (derivedKey item)).isSome
      · rw [if_pos hl]
        exact ih acc hk hfind
      · rw [if_neg hl]
        refine ih _ ?_ hfind
        rw [lookupC_append_of_none _ hk]
        exact lookupC_single_ne _ (fun he => hp he.symm)

theorem countP_key_of_nodup {κ β : Type} [DecidableEq κ] (m : List (κ × β)) (k : κ)
    (h : (m.map Prod.fst).Nodup) :
    m.countP (fun kv => decide (kv.1 = k)) =
      if (lookupC m k).isSome then 1 else 0 := by
  induction m with
  | nil => simp [lookupC]
  | cons kv rest ih =>
    obtain ⟨k', v'⟩ := kv
    simp only [List.map_cons, List.nodup_cons] at h
    obtain ⟨hnotin, hrest⟩ := h
    rw [List.countP_cons]
    by_cases hk : k = k'
    · subst hk
      have hzero : rest.countP (fun kv => decide (kv.1 = k)) = 0 := by
        rw [List.countP_eq_zero]
        intro kv hkv
        simp only [decide_eq_true_eq]
        intro he
        exact hnotin (he ▸ List.mem_map_of_mem Prod.fst hkv)
      simp [lookupC, hzero]
    · have : lookupC ((k', v') :: rest) k = lookupC rest k := by
        simp [lookupC, hk]
      rw [this, ih hrest]
      have hne : ((k', v') : κ × β).1 ≠ k := fun h => hk h.symm
      simp [hne]

theorem lookupC_of_mem_nodup {κ β : Type} [DecidableEq κ] (m : List (κ × β))
    (h : (m.map Prod.fst).Nodup) {kv : κ × β} (hm : kv ∈ m) :
    lookupC m kv.1 = some kv.2 := by
  induction m with
  | nil => cases hm
  | cons kv' rest ih =>
    obtain ⟨k', v'⟩ := kv'
    simp only [List.map_cons, List.nodup_cons] at h
    obtain ⟨hnotin, hrest⟩ := h
    rcases List.mem_cons.mp hm with rfl | hm'
    · simp [lookupC]
    · have hne : kv.1 ≠ k' := by
        intro he
        exact hnotin (he ▸ List.mem_map_of_mem Prod.fst hm')
      simp only [lookupC, hne, if_false]
      exact ih hrest hm'

theorem keyOfR_transformItem (pmap : List (Str × Product)) (t : Str)
    (k : Str × Str) (it : RawItem) : keyOfR (transformItem pmap t k it) = k := by
  obtain ⟨a, b⟩ := k
  rfl

-- ---------------------------------------------------------------------------
-- C1: the price aggregator is first-record-wins
-- ---------------------------------------------------------------------------

/-- Claim C1: for every raw store-price list, product list, and run
timestamp, the aggregator emits exactly one record per distinct
(derived retailer, product) key — none when no raw record derives the key,
exactly one when some does — and that record equals the transform of the
*first* raw record in input order with that key (so its price, currency,
in-stock and discount flags come from that record, and later raw records
with the same key have no effect on it). -/
theorem transform_retailer_prices_first_wins (inventory : List RawItem)
    (products : List Product) (current_time : Str) (key : Str × Str) :
    (inventory.find? (fun j => decide (derivedKey j = key)) = none →
      (transform_retailer_prices inventory products current_time).countP
        (fun r => decide (keyOfR r = key)) = 0) ∧
    ∀ it : RawItem, inventory.find? (fun j => decide (derivedKey j = key)) = some it →
      (transform_retailer_prices inventory products current_time).countP
        (fun r => decide (keyOfR r = key)) = 1 ∧
      ∀ r ∈ transform_retailer_prices inventory products current_time,
        keyOfR r = key →
        r = transformItem (buildProductMap products) current_time key it := by
  set pmap := buildProductMap products with hpmap
  set grouped := groupFirst inventory [] with hgrouped
  set mapped := grouped.map (fun kv => transformItem pmap current_time kv.1 kv.2) with hmapped
  have hout : transform_retailer_prices inventory products current_time = sortRP mapped := rfl
  have hperm : (sortRP mapped).Perm mapped := List.mergeSort_perm mapped _
  have hnodup : (grouped.map Prod.fst).Nodup := groupFirst_nodup inventory [] (by simp)
  have hcount : (sortRP mapped).countP (fun r => decide (keyOfR r = key)) =
      if (lookupC grouped key).isSome then 1 else 0 := by
    rw [hperm.countP_eq]
    rw [hmapped, List.countP_map]
    have hcongr : grouped.countP
        ((fun r => decide (keyOfR r = key)) ∘
          (fun kv => transformItem pmap current_time kv.1 kv.2)) =
        grouped.countP (fun kv => decide (kv.1 = key)) := by
      apply List.countP_congr
      intro kv hkv
      simp [Function.comp, keyOfR_transformItem]
    rw [hcongr]
    exact countP_key_of_nodup grouped key hnodup
  constructor
  · intro hnone
    rw [hout, hcount]
    have hlook : lookupC grouped key = none := by
      rw [hgrouped, groupFirst_lookup_none]
      refine ⟨rfl, ?_⟩
      intro it hit
      have := List.find?_eq_none.mp hnone it hit
      simpa using this
    rw [hlook]
    simp
  · intro it hfind
    have hsome : lookupC grouped key = some it :=
      groupFirst_find inventory [] key rfl hfind
    constructor
    · rw [hout, hcount, hsome]
      simp
    · intro r hr hkey
      rw [hout] at hr
      have hr' : r ∈ mapped := hperm.mem_iff.mp hr
      obtain ⟨kv, hkv, hEq⟩ := List.mem_map.mp hr'
      have hk1 : kv.1 = key := by
        rw [← hEq, keyOfR_transformItem] at hkey
        exact hkey
      have hlv : lookupC grouped kv.1 = some kv.2 :=
        lookupC_of_mem_nodup grouped hnodup hkv
      rw [hk1, hsome] at hlv
      injection hlv with hlv
      rw [← hEq, hk1, hlv]

/-- Witness for C1 on the spec's end-to-end scenario: two coop records for
product p1 yield exactly one aggregated record for the key (coop, p1). -/
theorem transform_retailer_prices_first_wins_witness :
    (transform_retailer_prices
      [{ store_id := some ['c', 'o', 'o', 'p', '_', '1', '2'],
         product_id := some ['p', '1'], price := some 2, currency := some sCHF,
         in_stock := none, discount_active := none },
       { store_id := some ['c', 'o', 'o', 'p', '_', '7', '7'],
         product_id := some ['p', '1'], price := some 9, currency := some sCHF,
         in_stock := none, discount_active := none }]
      [{ product_id := ['p', '1'], name := some ['M', 'i', 'l', 'k'],
         image_url := none, category := none, product_type := none,
         keywords := none, general_unit := none }]
      ['T']).countP (fun r => decide (keyOfR r = (sCoop, ['p', '1']))) = 1 :=
  ((transform_retailer_prices_first_wins
      [{ store_id := some ['c', 'o', 'o', 'p', '_', '1', '2'],
         product_id := some ['p', '1'], price := some 2, currency := some sCHF,
         in_stock := none, discount_active := none },
       { store_id := some ['c', 'o', 'o', 'p', '_', '7', '7'],
         product_id := some ['p', '1'], price := some 9, currency := some sCHF,
         in_stock := none, discount_active := none }]
      [{ product_id := ['p', '1'], name := some ['M', 'i', 'l', 'k'],
         image_url := none, category := none, product_type := none,
         keywords := none, general_unit := none }]
      ['T'] (sCoop, ['p', '1'])).2
    { store_id := some ['c', 'o', 'o', 'p', '_', '1', '2'],
      product_id := some ['p', '1'], price := some 2, currency := some sCHF,
      in_stock := none, discount_active := none }
    (by decide)).1
